import Mathlib

/-!
Verification of the structured-output extraction core of the legal-ai backend.

The definitions below are a shallow embedding of the Python source:
  * `jsonLoads` embeds `json.loads` as the repository uses it (a strict
    whole-input JSON parse; numbers are kept as their lexeme, since no call
    site inspects numeric values);
  * `extract` embeds the post-LLM parsing of
    `backend/app/core/llm.py:get_structured_legal_analysis` (lines 102-117)
    for the object shape, and of
    `backend/app/core/agent.py:LegalAgent._identify_risks` (lines 191-216)
    for the array shape;
  * `get_llm_response` embeds `backend/app/core/llm.py` lines 49-81, with the
    underlying model call abstracted as an `Except`-valued oracle;
  * `find_similar_documents` embeds
    `backend/app/core/document_embeddings.py` lines 29-60;
  * `verify_contract` and `store_on_blockchain` embed
    `backend/app/services/blockchain.py`, with `uuid4().hex` abstracted as an
    oracle argument.
Strings are modelled as `List Char` where index arithmetic matters.
-/

/-- JSON values. Numbers keep their source lexeme: the repository never
computes with parsed numbers, so numeric decoding is irrelevant to every
property proved below. -/
inductive Json where
  | null
  | bool (b : Bool)
  | num (lexeme : String)
  | str (s : String)
  | arr (elems : List Json)
  | obj (members : List (String × Json))
deriving Repr

/-- JSON whitespace as accepted by `json.loads`: space, tab, newline, carriage
return. -/
def isJsonWs (c : Char) : Bool :=
  c == ' ' || c == '\t' || c == '\n' || c == '\r'

/-- Drop leading JSON whitespace. -/
def skipWs : List Char → List Char
  | [] => []
  | c :: rest => if isJsonWs c then skipWs rest else c :: rest

/-- Value of a hexadecimal digit, if the character is one. -/
def hexVal (c : Char) : Option Nat :=
  if '0' ≤ c ∧ c ≤ '9' then some (c.toNat - '0'.toNat)
  else if 'a' ≤ c ∧ c ≤ 'f' then some (c.toNat - 'a'.toNat + 10)
  else if 'A' ≤ c ∧ c ≤ 'F' then some (c.toNat - 'A'.toNat + 10)
  else none

/-- Lex the body of a JSON string after the opening quote, decoding escapes;
returns the decoded characters and the input remaining after the closing
quote.  `\uXXXX` escapes are decoded when the code is a valid scalar value
(surrogate handling is irrelevant to every claim). -/
def lexStringRest : Nat → List Char → Option (List Char × List Char)
  | 0, _ => none
  | _, [] => none
  | fuel + 1, c :: rest =>
    if c == '"' then some ([], rest)
    else if c == '\\' then
      match rest with
      | [] => none
      | e :: rest₂ =>
        let decoded : Option (Char × List Char) :=
          if e == '"' then some ('"', rest₂)
          else if e == '\\' then some ('\\', rest₂)
          else if e == '/' then some ('/', rest₂)
          else if e == 'b' then some ('\x08', rest₂)
          else if e == 'f' then some ('\x0c', rest₂)
          else if e == 'n' then some ('\n', rest₂)
          else if e == 'r' then some ('\r', rest₂)
          else if e == 't' then some ('\t', rest₂)
          else if e == 'u' then
            match rest₂ with
            | h1 :: h2 :: h3 :: h4 :: rest₃ =>
              match hexVal h1, hexVal h2, hexVal h3, hexVal h4 with
              | some a, some b, some cc, some d =>
                let n := ((a * 16 + b) * 16 + cc) * 16 + d
                if n < 0xd800 || (0xdfff < n && n < 0x110000) then
                  some (Char.ofNat n, rest₃)
                else none
              | _, _, _, _ => none
            | _ => none
          else none
        match decoded with
        | some (ch, rest') =>
          match lexStringRest fuel rest' with
          | some (s, rem) => some (ch :: s, rem)
          | none => none
        | none => none
    else if c.toNat < 0x20 then none
    else
      match lexStringRest fuel rest with
      | some (s, rem) => some (c :: s, rem)
      | none => none

/-- Take the longest run of decimal digits. -/
def takeDigits : List Char → (List Char × List Char)
  | [] => ([], [])
  | c :: rest =>
    if c.isDigit then
      let (d, r) := takeDigits rest
      (c :: d, r)
    else ([], c :: rest)

/-- Lex a JSON number, mirroring the maximal match of the `json` module's
number regular expression `-?(0|[1-9]\d*)(\.\d+)?([eE][-+]?\d+)?`; returns the
matched lexeme and the rest of the input. -/
def lexNumber (input : List Char) : Option (List Char × List Char) :=
  let (sign, afterSign) :=
    match input with
    | '-' :: rest => (['-'], rest)
    | _ => (([] : List Char), input)
  match afterSign with
  | [] => none
  | c :: rest =>
    if c == '0' then some (numTail sign ['0'] rest)
    else if c.isDigit then
      let (d, r) := takeDigits rest
      some (numTail sign (c :: d) r)
    else none
where
  /-- After the integer part: optional fraction and exponent parts. -/
  numTail (sign intPart rest : List Char) : List Char × List Char :=
    let (fracPart, afterFrac) :=
      match rest with
      | '.' :: d :: r =>
        if d.isDigit then
          let (ds, r') := takeDigits r
          ('.' :: d :: ds, r')
        else (([] : List Char), rest)
      | _ => (([] : List Char), rest)
    let (expPart, afterExp) :=
      match afterFrac with
      | e :: '+' :: d :: r =>
        if (e == 'e' || e == 'E') && d.isDigit then
          let (ds, r') := takeDigits r
          (e :: '+' :: d :: ds, r')
        else (([] : List Char), afterFrac)
      | e :: '-' :: d :: r =>
        if (e == 'e' || e == 'E') && d.isDigit then
          let (ds, r') := takeDigits r
          (e :: '-' :: d :: ds, r')
        else (([] : List Char), afterFrac)
      | e :: d :: r =>
        if (e == 'e' || e == 'E') && d.isDigit then
          let (ds, r') := takeDigits r
          (e :: d :: ds, r')
        else (([] : List Char), afterFrac)
      | _ => (([] : List Char), afterFrac)
    (sign ++ intPart ++ fracPart ++ expPart, afterExp)

mutual

/-- Parse one JSON value (leading whitespace allowed), fuel-bounded. -/
def parseValue : Nat → List Char → Option (Json × List Char)
  | 0, _ => none
  | fuel + 1, input =>
    match skipWs input with
    | [] => none
    | c :: rest =>
      if c == '\x7b' then parseObjBody fuel rest
      else if c == '[' then parseArrBody fuel rest
      else if c == '"' then
        match lexStringRest fuel rest with
        | some (s, rem) => some (Json.str ⟨s⟩, rem)
        | none => none
      else if c == 't' then
        match rest with
        | 'r' :: 'u' :: 'e' :: rem => some (Json.bool true, rem)
        | _ => none
      else if c == 'f' then
        match rest with
        | 'a' :: 'l' :: 's' :: 'e' :: rem => some (Json.bool false, rem)
        | _ => none
      else if c == 'n' then
        match rest with
        | 'u' :: 'l' :: 'l' :: rem => some (Json.null, rem)
        | _ => none
      else
        match lexNumber (c :: rest) with
        | some (lx, rem) => some (Json.num ⟨lx⟩, rem)
        | none => none

/-- Parse an object body after the opening brace. -/
def parseObjBody : Nat → List Char → Option (Json × List Char)
  | 0, _ => none
  | fuel + 1, input =>
    match skipWs input with
    | '\x7d' :: rem => some (Json.obj [], rem)
    | other => parseMembers fuel other []

/-- Parse the member list of an object, positioned at a key string. -/
def parseMembers : Nat → List Char → List (String × Json) →
    Option (Json × List Char)
  | 0, _, _ => none
  | fuel + 1, input, acc =>
    match input with
    | '"' :: rest =>
      match lexStringRest fuel rest with
      | some (k, afterKey) =>
        match skipWs afterKey with
        | ':' :: afterColon =>
          match parseValue fuel afterColon with
          | some (v, afterVal) =>
            match skipWs afterVal with
            | ',' :: afterComma =>
              parseMembers fuel (skipWs afterComma) (acc ++ [(⟨k⟩, v)])
            | '\x7d' :: rem => some (Json.obj (acc ++ [(⟨k⟩, v)]), rem)
            | _ => none
          | none => none
        | _ => none
      | none => none
    | _ => none

/-- Parse an array body after the opening bracket. -/
def parseArrBody : Nat → List Char → Option (Json × List Char)
  | 0, _ => none
  | fuel + 1, input =>
    match skipWs input with
    | ']' :: rem => some (Json.arr [], rem)
    | other => parseElems fuel other []

/-- Parse the element list of an array, positioned at a value. -/
def parseElems : Nat → List Char → List Json → Option (Json × List Char)
  | 0, _, _ => none
  | fuel + 1, input, acc =>
    match parseValue fuel input with
    | some (v, afterVal) =>
      match skipWs afterVal with
      | ',' :: afterComma => parseElems fuel afterComma (acc ++ [v])
      | ']' :: rem => some (Json.arr (acc ++ [v]), rem)
      | _ => none
    | none => none

end

/-- Embedding of `json.loads`: parse the entire text as one JSON document,
allowing only surrounding whitespace. -/
def jsonLoads (l : List Char) : Option Json :=
  match parseValue (4 * l.length + 16) l with
  | some (v, rest) => if (skipWs rest).isEmpty then some v else none
  | none => none

example : jsonLoads " \x7b\"a\": 1\x7d ".data =
    some (Json.obj [("a", Json.num "1")]) := by rfl

example : jsonLoads "[\x7b\"a\":1\x7d]".data =
    some (Json.arr [Json.obj [("a", Json.num "1")]]) := by rfl

example : jsonLoads "no json here".data = none := by rfl

example : jsonLoads "[1, \"two\", true, null, -3.5e2]".data =
    some (Json.arr [Json.num "1", Json.str "two", Json.bool true, Json.null,
      Json.num "-3.5e2"]) := by rfl

/-! ### The extraction operation

`get_structured_legal_analysis` (llm.py lines 102-117) parses the raw LLM
text with `json.loads`; on `JSONDecodeError` it slices from the first `{` to
the last `}` and retries; if that also fails it returns the stub
`{key: [] if isinstance(value, list) else "" for key, value in
output_format.items()}`.  `LegalAgent._identify_risks` (agent.py lines
191-216) is the array-shaped instance of the same pattern, slicing from the
first `[` to the last `]` and falling back to a fixed one-element risk list.
-/

/-- The caller-declared shape: the object form carries the `output_format`
dict (its keys are the required keys, its values the defaults), as in
`get_structured_legal_analysis`; the array form is the
`_identify_risks` instance. -/
inductive Shape where
  | objectShape (output_format : List (String × Json))
  | arrayShape
deriving Repr

/-- Which tier produced the extraction result. -/
inductive Source where
  | strict_parse
  | recovered_parse
  | default_fallback
deriving Repr, DecidableEq

/-- Result of the extraction operation, tagged with the tier that produced
its value. -/
structure ExtractionResult where
  value : Json
  source : Source
deriving Repr

/-- Index of the first occurrence of `c`, as Python `str.find` (with `none`
for the `-1` case). -/
def findIdx (c : Char) : List Char → Option Nat
  | [] => none
  | x :: rest =>
    if x == c then some 0
    else (findIdx c rest).map (· + 1)

/-- Index of the last occurrence of `c`, as Python `str.rfind` (with `none`
for the `-1` case). -/
def rfindIdx (c : Char) (l : List Char) : Option Nat :=
  (findIdx c l.reverse).map (fun k => l.length - 1 - k)

/-- The opening delimiter the recovery tier scans for: `{` for an object
shape, `[` for an array shape. -/
def openDelim : Shape → Char
  | .objectShape _ => '\x7b'
  | .arrayShape => '['

/-- The closing delimiter the recovery tier scans for: `}` for an object
shape, `]` for an array shape. -/
def closeDelim : Shape → Char
  | .objectShape _ => '\x7d'
  | .arrayShape => ']'

/-- The recovery tier (llm.py lines 107-114, agent.py lines 196-202):
`start_idx = raw.find(open); end_idx = raw.rfind(close) + 1;` if
`start_idx >= 0 and end_idx > start_idx`, retry `json.loads` on
`raw[start_idx:end_idx]`; any failure inside is caught by the bare
`except: pass`. -/
def recoverTier (shape : Shape) (raw : List Char) : Option Json :=
  match findIdx (openDelim shape) raw, rfindIdx (closeDelim shape) raw with
  | some s, some e =>
    if s < e + 1 then jsonLoads ((raw.drop s).take (e + 1 - s)) else none
  | _, _ => none

/-- One entry of the object-shape fallback stub:
`[] if isinstance(value, list) else ""` (llm.py line 117). -/
def stubEntry : Json → Json
  | .arr _ => Json.arr []
  | _ => Json.str ""

/-- The default-fallback value (llm.py line 117 for the object shape: each
`output_format` key maps to `[]` when its declared default is a list and `""`
otherwise; agent.py lines 207-216 for the array shape: a fixed one-element
risk list). -/
def fallbackValue : Shape → Json
  | .objectShape fmt =>
    .obj (fmt.map fun kv => (kv.1, stubEntry kv.2))
  | .arrayShape =>
    .arr [.obj [("clause", .str "Could not extract specific clauses"),
                ("issue", .str "Unable to parse contract"),
                ("severity", .str "Unknown"),
                ("improvement",
                 .str "Have contract reviewed manually by legal counsel")]]

/-- The extraction operation: strict parse of the whole text, then the
delimiter-sliced recovery parse, then the default fallback.  Total by
construction — the Python `try/except` chains mean no branch raises.  Note
that, as in the source, neither parse tier checks the kind of the parsed
value against `shape`, and no required key is filled in on a successful
parse. -/
def extract (raw : List Char) (shape : Shape) : ExtractionResult :=
  match jsonLoads raw with
  | some v => ⟨v, .strict_parse⟩
  | none =>
    match recoverTier shape raw with
    | some v => ⟨v, .recovered_parse⟩
    | none => ⟨fallbackValue shape, .default_fallback⟩

/-- Shallow conformance, written from the spec's words (section 3 and the
glossary): an object with every required key present for `objectShape`, a
sequence for `arrayShape`.  This is the spec-side check the code's output is
compared against; it is not computed anywhere in the source. -/
def shallowConforms (shape : Shape) (v : Json) : Bool :=
  match shape, v with
  | .objectShape fmt, .obj kvs => fmt.all fun kv => kvs.any (·.1 == kv.1)
  | .objectShape _, _ => false
  | .arrayShape, .arr _ => true
  | .arrayShape, _ => false

example :
    extract "\x7b\"a\": 1\x7d".data (.objectShape [("a", .arr [])]) =
      ⟨.obj [("a", .num "1")], .strict_parse⟩ := by rfl

example :
    extract "Here: \x7b\"a\": 1\x7d ok".data (.objectShape [("a", .arr [])]) =
      ⟨.obj [("a", .num "1")], .recovered_parse⟩ := by rfl

example :
    extract "no structured output".data
        (.objectShape [("issues", .arr []), ("risks", .obj [])]) =
      ⟨.obj [("issues", .arr []), ("risks", .str "")], .default_fallback⟩ := by
  rfl

example :
    extract "nothing".data .arrayShape =
      ⟨fallbackValue .arrayShape, .default_fallback⟩ := by rfl

example :
    extract "Sure! [\x7b\"risk\":\"x\"\x7d] bye".data .arrayShape =
      ⟨.arr [.obj [("risk", .str "x")]], .recovered_parse⟩ := by rfl

/-! ### The model-call operation (llm.py lines 49-81)

The network call `model.generate_content(...).text` is abstracted as an
`Except`-valued oracle: `.ok text` is a normal response, `.error e` is any
raised exception (transport, timeout, provider). -/

/-- Does `needle` occur as a contiguous substring of `hay`?  Embeds the
Python `in` operator on strings. -/
def containsSub (hay needle : List Char) : Bool :=
  match hay with
  | [] => needle.isEmpty
  | _ :: t => needle.isPrefixOf hay || containsSub t needle

/-- The fixed apology string substituted on any model-call exception
(llm.py line 81). -/
def apologyText : String :=
  "I was unable to process that legal request due to a technical error. Please try again with a more specific prompt."

/-- The reasoning wrapper of llm.py lines 56-69: prompts longer than 200
characters that mention analyze/draft/identify (case-insensitively) are
wrapped in the step-by-step template; others are sent unchanged. -/
def enhancedPrompt (prompt : String) : String :=
  let lower : List Char := prompt.data.map Char.toLower
  if prompt.length > 200 &&
      (containsSub lower "analyze".data || containsSub lower "draft".data ||
       containsSub lower "identify".data) then
    "\n            " ++ prompt ++
    "\n            \n            Let\x27s think through this step-by-step:\n            1. First, I\x27ll analyze the key components of this task\n            2. Then, I\x27ll identify the relevant legal principles and considerations\n            3. Next, I\x27ll apply those principles to this specific situation\n            4. Finally, I\x27ll formulate a comprehensive response\n            \n            My analysis:\n            "
  else prompt

/-- Embedding of `get_llm_response`: send the (possibly wrapped) prompt to
the model; the `try/except` around the call turns every raised exception
into the fixed apology string. -/
def get_llm_response (modelCall : String → Except String String)
    (prompt : String) : String :=
  match modelCall (enhancedPrompt prompt) with
  | .ok text => text
  | .error _ => apologyText

/-! ### Document embeddings (document_embeddings.py)

The store embeds the `document_store` dict as an association list in
insertion order with unique keys.  `list(set(...))` in `_extract_keywords`
has unspecified order in Python; the embedding takes first-occurrence order,
which is one admissible realisation and does not affect any property below
(keywords are only ever consumed as sets). -/

/-- One stored document: its text, metadata dict, and extracted keywords. -/
structure DocEntry where
  text : String
  metadata : Json
  keywords : List String
deriving Repr

/-- The stopword set of `_extract_keywords` (line 94). -/
def stopwords : List String :=
  ["the", "and", "to", "of", "a", "in", "that", "is", "for", "with", "on",
   "by", "this", "as"]

/-- A word character in the sense of the regex `\w` (ASCII range, which is
all the repository ever feeds in). -/
def isWordChar (c : Char) : Bool := c.isAlphanum || c == '_'

/-- `re.sub(r'[^\w\s]', '', text.lower())`: lowercase, then drop every
character that is neither a word character nor whitespace. -/
def cleanChars (l : List Char) : List Char :=
  (l.map Char.toLower).filter fun c => isWordChar c || c.isWhitespace

/-- `str.split()`: split on whitespace runs, discarding empty pieces. -/
def splitWs (l : List Char) : List (List Char) :=
  go l []
where
  /-- Accumulates the current word in reverse. -/
  go : List Char → List Char → List (List Char)
  | [], cur => if cur.isEmpty then [] else [cur.reverse]
  | c :: rest, cur =>
    if c.isWhitespace then
      if cur.isEmpty then go rest [] else cur.reverse :: go rest []
    else go rest (c :: cur)

/-- Embedding of `_extract_keywords` (lines 82-101): clean, split, drop
stopwords and short words, deduplicate, keep at most 50. -/
def extract_keywords (text : String) : List String :=
  let words : List String := (splitWs (cleanChars text.data)).map fun w => ⟨w⟩
  let keywords := words.filter fun w => !stopwords.contains w && w.length > 2
  keywords.eraseDups.take 50

/-- `len(set(a) & set(b))`: the number of distinct strings occurring in both
lists. -/
def overlapCount (a b : List String) : Nat :=
  (a.eraseDups.filter fun k => b.contains k).length

/-- Stable insertion of one scored document into a list sorted by
non-increasing score; a stable sort built from this agrees with Python's
stable `list.sort(key=..., reverse=True)`. -/
def insertDesc (x : String × Nat) : List (String × Nat) → List (String × Nat)
  | [] => [x]
  | y :: ys => if x.2 ≥ y.2 then x :: y :: ys else y :: insertDesc x ys

/-- Stable sort by non-increasing score. -/
def sortDesc : List (String × Nat) → List (String × Nat)
  | [] => []
  | x :: xs => insertDesc x (sortDesc xs)

/-- One row of `find_similar_documents`'s result. -/
structure SimilarityHit where
  doc_id : String
  score : Nat
  metadata : Json
  text_preview : String
deriving Repr

/-- One row of the result loop (lines 51-58): look the scored id back up in
the store and keep its metadata and a 200-character text preview with the
score.  The `none` branch is dead for stores built from a dict (ids are
unique), mirroring Python's infallible `dict[doc_id]`. -/
def hitOf (store : List (String × DocEntry)) (p : String × Nat) :
    Option SimilarityHit :=
  (store.lookup p.1).map fun doc =>
    ⟨p.1, p.2, doc.metadata, (⟨doc.text.data.take 200⟩ : String) ++ "..."⟩

/-- Embedding of `find_similar_documents` (lines 29-60): score every stored
document by keyword overlap with the query, sort by score descending, take
`top_k`, and build the result rows. -/
def find_similar_documents (store : List (String × DocEntry))
    (query_text : String) (top_k : Nat) : List SimilarityHit :=
  if store.isEmpty then []
  else
    let query_keywords := extract_keywords query_text
    let scores := store.map fun kv =>
      (kv.1, overlapCount query_keywords kv.2.keywords)
    let top_docs := (sortDesc scores).take top_k
    top_docs.filterMap (hitOf store)

/-! ### Blockchain service (blockchain.py)

`uuid4().hex` — 32 lowercase hexadecimal characters — is abstracted as an
oracle argument; `asyncio.sleep` has no value-level effect. -/

/-- The mock verification record returned by `verify_contract`. -/
structure VerificationResult where
  verified : Bool
  timestamp : String
  network : String
deriving Repr, DecidableEq

/-- Embedding of `verify_contract` (lines 27-42): the returned record is a
fixed literal, independent of the queried hash. -/
def verify_contract (blockchain_hash : String) : VerificationResult :=
  ⟨true, "2025-03-21T12:34:56Z", "solana-devnet"⟩

/-- Embedding of `store_on_blockchain` (lines 12-25):
`f"sol{uuid4().hex[:16]}"`. -/
def store_on_blockchain (contract_id : String) (content_hash : Int)
    (parties : List String) (uuidHex : List Char) : List Char :=
  's' :: 'o' :: 'l' :: uuidHex.take 16

/-- A lowercase hexadecimal digit, the alphabet of `uuid4().hex`. -/
def isLowerHexDigit (c : Char) : Bool :=
  c.isDigit || ('a' ≤ c && c ≤ 'f')

/-! ### Helper lemmas -/

/-- When `json.loads` succeeds on the whole text, `extract` returns the
parsed value from the strict tier. -/
theorem extract_eq_strict {raw : List Char} (shape : Shape) {v : Json}
    (h : jsonLoads raw = some v) : extract raw shape = ⟨v, .strict_parse⟩ := by
  unfold extract
  rw [h]

/-- When the strict tier fails and the recovery tier succeeds, `extract`
returns the recovered value. -/
theorem extract_eq_recovered {raw : List Char} (shape : Shape) {v : Json}
    (h₁ : jsonLoads raw = none) (h₂ : recoverTier shape raw = some v) :
    extract raw shape = ⟨v, .recovered_parse⟩ := by
  unfold extract
  rw [h₁, h₂]

/-- When both parse tiers fail, `extract` returns the fallback value. -/
theorem extract_eq_fallback {raw : List Char} (shape : Shape)
    (h₁ : jsonLoads raw = none) (h₂ : recoverTier shape raw = none) :
    extract raw shape = ⟨fallbackValue shape, .default_fallback⟩ := by
  unfold extract
  rw [h₁, h₂]

/-- The fallback value always passes the spec's shallow conformance check:
the object stub carries exactly the `output_format` keys, and the array
default is a sequence. -/
theorem shallowConforms_fallbackValue (shape : Shape) :
    shallowConforms shape (fallbackValue shape) = true := by
  cases shape with
  | arrayShape => rfl
  | objectShape fmt =>
    show (fmt.all fun kv =>
      (fmt.map fun kv => (kv.1, stubEntry kv.2)).any (·.1 == kv.1)) = true
    rw [List.all_eq_true]
    intro kv hkv
    rw [List.any_eq_true]
    exact ⟨(kv.1, stubEntry kv.2), List.mem_map.mpr ⟨kv, hkv, rfl⟩, by simp⟩

/-! ### Claim theorems -/

/-- C1 counterexample: the conformance invariant fails in the strict tier.
With the object shape requiring the key `"entities"`, the raw text `"[1]"`
parses strictly to a JSON array, which `get_structured_legal_analysis`
returns as-is; the returned value is not an object with the required key, so
the claimed all-tier conformance invariant is false on the code. -/
theorem strict_tier_value_can_violate_shape :
    (extract "[1]".data (.objectShape [("entities", .arr [])])).source =
        .strict_parse ∧
    shallowConforms (.objectShape [("entities", .arr [])])
        (extract "[1]".data (.objectShape [("entities", .arr [])])).value =
      false :=
  ⟨rfl, rfl⟩

/-- C1 (amended): the shallow-conformance invariant holds only for the
default-fallback tier — whenever `extract` resolves through the fallback, the
returned value conforms to the declared shape; the strict and recovered
tiers return whatever parsed, unchecked. -/
theorem extract_fallback_tier_conforms (raw : List Char) (shape : Shape)
    (h : (extract raw shape).source = .default_fallback) :
    shallowConforms shape (extract raw shape).value = true := by
  cases hj : jsonLoads raw with
  | some v => rw [extract_eq_strict shape hj] at h; exact absurd h (by simp)
  | none =>
    cases hr : recoverTier shape raw with
    | some v =>
      rw [extract_eq_recovered shape hj hr] at h
      exact absurd h (by simp)
    | none =>
      rw [extract_eq_fallback shape hj hr]
      exact shallowConforms_fallbackValue shape

/-- C1 witness: a concrete fallback-tier run whose value conforms. -/
theorem extract_fallback_tier_conforms_witness :
    shallowConforms (.objectShape [("issues", .arr [])])
      (extract "no output".data (.objectShape [("issues", .arr [])])).value =
      true :=
  extract_fallback_tier_conforms "no output".data
    (.objectShape [("issues", .arr [])]) rfl

/-- C2: the extraction operation is total — every raw text yields a result,
each tier's failure falls through to the next, and when both parse tiers
fail the operation still returns (the fallback value), never raising. -/
theorem extract_never_raises_falls_through (raw : List Char) (shape : Shape) :
    (∀ v, jsonLoads raw = some v → extract raw shape = ⟨v, .strict_parse⟩) ∧
    (∀ v, jsonLoads raw = none → recoverTier shape raw = some v →
      extract raw shape = ⟨v, .recovered_parse⟩) ∧
    (jsonLoads raw = none → recoverTier shape raw = none →
      extract raw shape = ⟨fallbackValue shape, .default_fallback⟩) :=
  ⟨fun _ h => extract_eq_strict shape h,
   fun _ h₁ h₂ => extract_eq_recovered shape h₁ h₂,
   fun h₁ h₂ => extract_eq_fallback shape h₁ h₂⟩

/-- C2 witness: on a text with no JSON of the requested kind, the operation
returns the fallback result rather than failing. -/
theorem extract_never_raises_falls_through_witness :
    extract "cannot analyze this".data .arrayShape =
      ⟨fallbackValue .arrayShape, .default_fallback⟩ :=
  (extract_never_raises_falls_through "cannot analyze this".data
    .arrayShape).2.2 rfl rfl

/-- C3 counterexample: the object-shape fallback is not the caller's default
mapping.  With `output_format = {"risks": {}}` (as in `analyze_legal_text`)
and unparseable text, the code returns `{"risks": ""}` — the non-list
default `{}` was replaced by `""`, so the value is not exactly the caller's
supplied default. -/
theorem fallback_not_callers_default :
    extract "unparseable".data (.objectShape [("risks", .obj [])]) =
      ⟨.obj [("risks", .str "")], .default_fallback⟩ ∧
    Json.obj [("risks", .str "")] ≠ Json.obj [("risks", .obj [])] :=
  ⟨rfl, by simp⟩

/-- C3 (amended): when both parse tiers fail, the object-shape operation
returns the stub derived from `output_format` — each key mapped to `[]` when
its declared default is a list and to `""` otherwise — while the array-shape
operation returns its fixed default risk list unchanged. -/
theorem extract_fallback_stub_value (raw : List Char)
    (fmt : List (String × Json)) :
    (jsonLoads raw = none → recoverTier (.objectShape fmt) raw = none →
      extract raw (.objectShape fmt) =
        ⟨.obj (fmt.map fun kv => (kv.1, stubEntry kv.2)),
         .default_fallback⟩) ∧
    (jsonLoads raw = none → recoverTier .arrayShape raw = none →
      extract raw .arrayShape =
        ⟨.arr [.obj [("clause", .str "Could not extract specific clauses"),
                     ("issue", .str "Unable to parse contract"),
                     ("severity", .str "Unknown"),
                     ("improvement",
                      .str "Have contract reviewed manually by legal counsel")]],
         .default_fallback⟩) :=
  ⟨fun h₁ h₂ => extract_eq_fallback _ h₁ h₂,
   fun h₁ h₂ => extract_eq_fallback _ h₁ h₂⟩

/-- C3 witness: concrete fallback runs for both shapes. -/
theorem extract_fallback_stub_value_witness :
    extract "none here".data (.objectShape [("entities", .arr []),
        ("risks", .obj [])]) =
      ⟨.obj [("entities", .arr []), ("risks", .str "")], .default_fallback⟩ ∧
    extract "none here".data .arrayShape =
      ⟨fallbackValue .arrayShape, .default_fallback⟩ :=
  ⟨(extract_fallback_stub_value "none here".data
      [("entities", .arr []), ("risks", .obj [])]).1 rfl rfl,
   (extract_fallback_stub_value "none here".data []).2 rfl rfl⟩

/-- C5 counterexample: missing required keys are not filled in after a
successful parse.  With required keys `a, b` and default `b ↦ []`, parsing
`{"a": 1}` returns `{"a": 1}` itself, not the claimed `{"a": 1, "b": []}`. -/
theorem missing_required_key_not_filled :
    extract "\x7b\"a\": 1\x7d".data
        (.objectShape [("a", .str ""), ("b", .arr [])]) =
      ⟨.obj [("a", .num "1")], .strict_parse⟩ ∧
    Json.obj [("a", .num "1")] ≠
      Json.obj [("a", .num "1"), ("b", .arr [])] :=
  ⟨rfl, by simp⟩

/-- C5 (amended): on a successful parse the operation returns the parsed
object unchanged; default values are consulted only when constructing the
fallback stub, never to fill missing required keys.  At the claim's own
input, the result is `{"a": 1}` with the missing `b` left absent. -/
theorem extract_strict_returns_parsed_unfilled :
    extract "\x7b\"a\": 1\x7d".data
        (.objectShape [("a", .str ""), ("b", .arr [])]) =
      ⟨.obj [("a", .num "1")], .strict_parse⟩ ∧
    (fallbackValue (.objectShape [("a", .str ""), ("b", .arr [])]) =
      .obj [("a", .str ""), ("b", .arr [])]) :=
  ⟨rfl, rfl⟩

/-- C6: on raw text that is in its entirety a well-formed JSON object
conforming to the declared object shape, the operation succeeds in the
strict tier and returns exactly the parsed object. -/
theorem extract_strict_on_wellformed_object (raw : List Char)
    (kvs : List (String × Json)) (fmt : List (String × Json))
    (h : jsonLoads raw = some (.obj kvs))
    (hconf : shallowConforms (.objectShape fmt) (.obj kvs) = true) :
    extract raw (.objectShape fmt) = ⟨.obj kvs, .strict_parse⟩ :=
  extract_eq_strict _ h

/-- C6 witness: a concrete well-formed conforming object is returned from
the strict tier. -/
theorem extract_strict_on_wellformed_object_witness :
    extract "\x7b\"a\": 1\x7d".data (.objectShape [("a", .arr [])]) =
      ⟨.obj [("a", .num "1")], .strict_parse⟩ :=
  extract_strict_on_wellformed_object "\x7b\"a\": 1\x7d".data
    [("a", .num "1")] [("a", .arr [])] rfl rfl

/-- C7: the extraction operation is a pure function of the raw text and the
shape — two calls on the same inputs yield identical results. -/
theorem extract_deterministic (raw : List Char) (shape : Shape)
    (r₁ r₂ : ExtractionResult) (h₁ : extract raw shape = r₁)
    (h₂ : extract raw shape = r₂) : r₁ = r₂ :=
  h₁ ▸ h₂ ▸ rfl

/-- C7 witness: two concrete calls on the same input agree. -/
theorem extract_deterministic_witness :
    extract "[1]".data .arrayShape = extract "[1]".data .arrayShape :=
  extract_deterministic "[1]".data .arrayShape _ _ rfl rfl

/-- C8: `get_llm_response` never propagates a model-call exception — whenever
the underlying call raises (the oracle returns an error), the operation
returns the fixed apology string instead. -/
theorem get_llm_response_catches_exceptions
    (modelCall : String → Except String String) (prompt e : String)
    (h : modelCall (enhancedPrompt prompt) = .error e) :
    get_llm_response modelCall prompt = apologyText := by
  unfold get_llm_response
  rw [h]

/-- C8 witness: a concrete always-failing transport yields the apology. -/
theorem get_llm_response_catches_exceptions_witness :
    get_llm_response (fun _ => .error "timeout") "hello" = apologyText :=
  get_llm_response_catches_exceptions (fun _ => .error "timeout") "hello"
    "timeout" rfl

/-- C10: `verify_contract` returns the same fixed record for every input —
no hash is ever reported unverified — and `store_on_blockchain` returns
`"sol"` followed by the first 16 characters of the uuid hex, hence (for a
genuine 32-character lowercase-hex uuid) a 19-character string whose tail is
16 lowercase hex digits. -/
theorem blockchain_constant_verify_and_hash_format :
    (∀ h₁ h₂ : String, verify_contract h₁ = verify_contract h₂) ∧
    (∀ h : String,
      verify_contract h = ⟨true, "2025-03-21T12:34:56Z", "solana-devnet"⟩) ∧
    (∀ (cid : String) (ch : Int) (parties : List String)
        (uuidHex : List Char),
      uuidHex.length = 32 → (∀ c ∈ uuidHex, isLowerHexDigit c = true) →
      store_on_blockchain cid ch parties uuidHex =
          's' :: 'o' :: 'l' :: uuidHex.take 16 ∧
      (store_on_blockchain cid ch parties uuidHex).length = 19 ∧
      ∀ c ∈ (store_on_blockchain cid ch parties uuidHex).drop 3,
        isLowerHexDigit c = true) := by
  refine ⟨fun _ _ => rfl, fun _ => rfl, fun cid ch parties uuidHex hlen hhex => ?_⟩
  refine ⟨rfl, ?_, ?_⟩
  · simp [store_on_blockchain, hlen]
  · intro c hc
    exact hhex c (List.mem_of_mem_take hc)

/-- C10 witness: a concrete uuid hex produces a 19-character `sol…` hash. -/
theorem blockchain_constant_verify_and_hash_format_witness :
    store_on_blockchain "c1" 7 ["alice", "bob"]
        "00112233445566778899aabbccddeeff".data =
      "sol0011223344556677".data ∧
    (store_on_blockchain "c1" 7 ["alice", "bob"]
        "00112233445566778899aabbccddeeff".data).length = 19 := by
  have h := blockchain_constant_verify_and_hash_format.2.2 "c1" 7
    ["alice", "bob"] "00112233445566778899aabbccddeeff".data
    (by decide) (by decide)
  exact ⟨by rw [h.1]; rfl, h.2.1⟩

/-- `str.find` over an appended block that does not contain the character
searches past it. -/
theorem findIdx_append_of_none (c : Char) (pre l : List Char)
    (h : ∀ x ∈ pre, x ≠ c) :
    findIdx c (pre ++ l) = (findIdx c l).map (· + pre.length) := by
  induction pre with
  | nil =>
    simp only [List.nil_append, List.length_nil]
    cases h' : findIdx c l <;> simp
  | cons x rest ih =>
    have hx : (x == c) = false :=
      beq_eq_false_iff_ne.mpr (h x (List.mem_cons_self x rest))
    have ih' := ih fun y hy => h y (List.mem_cons_of_mem x hy)
    simp only [List.cons_append, findIdx, hx, Bool.false_eq_true, if_false,
      List.append_eq, ih']
    cases h' : findIdx c l with
    | none => rfl
    | some k => simp only [Option.map_some', List.length_cons,
        Option.some.injEq]; omega

/-- `str.find` stops at an immediate occurrence. -/
theorem findIdx_cons_self (c : Char) (l : List Char) :
    findIdx c (c :: l) = some 0 := by
  simp [findIdx]

/-- The first occurrence of `c` after a `c`-free block is at the block's
length. -/
theorem findIdx_of_head (c : Char) (pre l : List Char)
    (h : ∀ x ∈ pre, x ≠ c) : findIdx c (pre ++ c :: l) = some pre.length := by
  rw [findIdx_append_of_none c pre _ h, findIdx_cons_self]
  simp

/-- The last occurrence of `c` in `pre ++ (l ++ [c]) ++ suf` with a `c`-free
tail block is right before the tail block. -/
theorem rfindIdx_of_last (c : Char) (pre l suf : List Char)
    (h : ∀ x ∈ suf, x ≠ c) :
    rfindIdx c (pre ++ (l ++ [c]) ++ suf) = some (pre.length + l.length) := by
  unfold rfindIdx
  have hrev : (pre ++ (l ++ [c]) ++ suf).reverse =
      suf.reverse ++ c :: (l.reverse ++ pre.reverse) := by simp
  rw [hrev, findIdx_of_head c _ _ fun x hx => h x (List.mem_reverse.mp hx)]
  simp
  omega

/-- C4 counterexample: a claim-shaped input on which the operation does not
return the embedded object.  With prose prefix `"["` and suffix `"]"`
(neither contains a brace) around the valid object `{"a":1}`, the whole text
is itself valid JSON — an array — so the strict tier returns that array and
the embedded object is never recovered. -/
theorem full_text_json_overrides_recovery :
    (∀ x ∈ "[".data, x ≠ '\x7b' ∧ x ≠ '\x7d') ∧
    (∀ x ∈ "]".data, x ≠ '\x7b' ∧ x ≠ '\x7d') ∧
    jsonLoads "\x7b\"a\":1\x7d".data = some (.obj [("a", .num "1")]) ∧
    extract "[\x7b\"a\":1\x7d]".data (.objectShape [("a", .arr [])]) =
      ⟨.arr [.obj [("a", .num "1")]], .strict_parse⟩ ∧
    Json.arr [.obj [("a", .num "1")]] ≠ Json.obj [("a", .num "1")] :=
  ⟨by decide, by decide, rfl, rfl, by simp⟩

/-- C4 (amended): when the strict tier fails, the recovery tier slices from
the first `{` to the last `}` and retries the strict parse on the slice; for
prose-wrapped object text whose prose contains no braces *and whose whole
text is not itself valid JSON*, the operation returns exactly the embedded
object from the recovered tier.  (The italicised condition is forced by the
counterexample: bracket-only prose can make the whole text parse as an
array, which the strict tier returns unchecked.) -/
theorem recovered_slice_returns_embedded_object
    (pre mid suf : List Char) (fmt : List (String × Json)) (o : Json)
    (hpre : ∀ x ∈ pre, x ≠ '\x7b' ∧ x ≠ '\x7d')
    (hsuf : ∀ x ∈ suf, x ≠ '\x7b' ∧ x ≠ '\x7d')
    (hobj : jsonLoads ('\x7b' :: mid ++ ['\x7d']) = some o)
    (hfull : jsonLoads (pre ++ ('\x7b' :: mid ++ ['\x7d']) ++ suf) = none) :
    findIdx '\x7b' (pre ++ ('\x7b' :: mid ++ ['\x7d']) ++ suf) =
        some pre.length ∧
    rfindIdx '\x7d' (pre ++ ('\x7b' :: mid ++ ['\x7d']) ++ suf) =
        some (pre.length + mid.length + 1) ∧
    extract (pre ++ ('\x7b' :: mid ++ ['\x7d']) ++ suf) (.objectShape fmt) =
      ⟨o, .recovered_parse⟩ := by
  have hfind : findIdx '\x7b' (pre ++ ('\x7b' :: mid ++ ['\x7d']) ++ suf) =
      some pre.length := by
    have hassoc : pre ++ ('\x7b' :: mid ++ ['\x7d']) ++ suf =
        pre ++ '\x7b' :: ((mid ++ ['\x7d']) ++ suf) := by simp
    rw [hassoc]
    exact findIdx_of_head _ _ _ fun x hx => (hpre x hx).1
  have hrfind : rfindIdx '\x7d' (pre ++ ('\x7b' :: mid ++ ['\x7d']) ++ suf) =
      some (pre.length + mid.length + 1) := by
    have hassoc : pre ++ ('\x7b' :: mid ++ ['\x7d']) ++ suf =
        pre ++ (('\x7b' :: mid) ++ ['\x7d']) ++ suf := by simp
    rw [hassoc, rfindIdx_of_last _ _ _ _ fun x hx => (hsuf x hx).2]
    simp [Nat.add_assoc]
  refine ⟨hfind, hrfind, ?_⟩
  have hrec : recoverTier (.objectShape fmt)
      (pre ++ ('\x7b' :: mid ++ ['\x7d']) ++ suf) = some o := by
    have hcond : pre.length < pre.length + mid.length + 1 + 1 := by omega
    have hdrop : (pre ++ ('\x7b' :: mid ++ ['\x7d']) ++ suf).drop pre.length =
        ('\x7b' :: mid ++ ['\x7d']) ++ suf := by
      rw [List.append_assoc]
      exact List.drop_left pre _
    have hlen : pre.length + mid.length + 1 + 1 - pre.length =
        ('\x7b' :: mid ++ ['\x7d']).length := by
      simp only [List.length_cons, List.length_append, List.length_nil]
      omega
    simp only [recoverTier, openDelim, closeDelim, hfind, hrfind]
    rw [if_pos hcond, hdrop, hlen, List.take_left, hobj]
  exact extract_eq_recovered _ hfull hrec

/-- C4 witness: a concrete prose-wrapped object is recovered by slicing. -/
theorem recovered_slice_returns_embedded_object_witness :
    extract "Sure: \x7b\"a\": 1\x7d done.".data (.objectShape []) =
      ⟨.obj [("a", .num "1")], .recovered_parse⟩ := by
  have h := (recovered_slice_returns_embedded_object "Sure: ".data
    "\"a\": 1".data " done.".data [] (.obj [("a", .num "1")])
    (by decide) (by decide) rfl rfl).2.2
  exact h

/-- Membership in a stable descending insertion. -/
theorem mem_insertDesc (x a : String × Nat) (l : List (String × Nat)) :
    a ∈ insertDesc x l ↔ a = x ∨ a ∈ l := by
  induction l with
  | nil => simp [insertDesc]
  | cons y ys ih =>
    by_cases hc : x.2 ≥ y.2
    · simp only [insertDesc, if_pos hc, List.mem_cons]
    · simp only [insertDesc, if_neg hc, List.mem_cons, ih]
      tauto

/-- Inserting into a list sorted by non-increasing score keeps it sorted. -/
theorem pairwise_insertDesc (x : String × Nat) (l : List (String × Nat))
    (h : l.Pairwise fun a b => b.2 ≤ a.2) :
    (insertDesc x l).Pairwise fun a b => b.2 ≤ a.2 := by
  induction l with
  | nil => simp [insertDesc]
  | cons y ys ih =>
    rw [List.pairwise_cons] at h
    obtain ⟨hy, hys⟩ := h
    by_cases hc : x.2 ≥ y.2
    · simp only [insertDesc, if_pos hc]
      rw [List.pairwise_cons]
      refine ⟨?_, ?_⟩
      · intro z hz
        rcases List.mem_cons.mp hz with rfl | hz'
        · exact hc
        · exact le_trans (hy z hz') hc
      · rw [List.pairwise_cons]
        exact ⟨hy, hys⟩
    · simp only [insertDesc, if_neg hc]
      rw [List.pairwise_cons]
      refine ⟨?_, ih hys⟩
      intro z hz
      rcases (mem_insertDesc x z ys).mp hz with rfl | hz'
      · omega
      · exact hy z hz'

/-- The scored list is sorted by non-increasing score. -/
theorem sortDesc_pairwise (l : List (String × Nat)) :
    (sortDesc l).Pairwise fun a b => b.2 ≤ a.2 := by
  induction l with
  | nil => simp [sortDesc]
  | cons x xs ih => exact pairwise_insertDesc x _ ih

/-- The stable descending sort is a permutation at the level of
membership. -/
theorem mem_sortDesc (a : String × Nat) (l : List (String × Nat)) :
    a ∈ sortDesc l ↔ a ∈ l := by
  induction l with
  | nil => simp [sortDesc]
  | cons x xs ih => simp [sortDesc, mem_insertDesc, ih]

/-- A produced row keeps the id and the score of the scored pair it was
built from. -/
theorem hitOf_score {store : List (String × DocEntry)} {p : String × Nat}
    {hit : SimilarityHit} (h : hitOf store p = some hit) :
    hit.score = p.2 ∧ hit.doc_id = p.1 := by
  unfold hitOf at h
  cases hl : store.lookup p.1 with
  | none => rw [hl] at h; simp at h
  | some doc =>
    rw [hl] at h
    simp only [Option.map_some', Option.some.injEq] at h
    cases h
    exact ⟨rfl, rfl⟩

/-- Building rows from a score-sorted list yields a score-sorted result. -/
theorem pairwise_hits (store : List (String × DocEntry))
    (l : List (String × Nat)) (hl : l.Pairwise fun a b => b.2 ≤ a.2) :
    (l.filterMap (hitOf store)).Pairwise
      fun a b : SimilarityHit => b.score ≤ a.score := by
  rw [List.pairwise_filterMap]
  refine hl.imp ?_
  intro a b hab x hx y hy
  obtain ⟨hsx, _⟩ := hitOf_score (Option.mem_def.mp hx)
  obtain ⟨hsy, _⟩ := hitOf_score (Option.mem_def.mp hy)
  rw [hsx, hsy]
  exact hab

/-- C9: `find_similar_documents` returns the empty list on an empty store,
at most `top_k` rows, rows sorted by non-increasing score, and every row's
score is the cardinality of the intersection of the query's keyword set with
the keyword set of a stored document bearing that row's id. -/
theorem find_similar_documents_spec (store : List (String × DocEntry))
    (query_text : String) (top_k : Nat) :
    (store = [] → find_similar_documents store query_text top_k = []) ∧
    (find_similar_documents store query_text top_k).length ≤ top_k ∧
    (find_similar_documents store query_text top_k).Pairwise
      (fun a b => b.score ≤ a.score) ∧
    ∀ hit ∈ find_similar_documents store query_text top_k,
      ∃ entry ∈ store, hit.doc_id = entry.1 ∧
        hit.score = overlapCount (extract_keywords query_text)
          entry.2.keywords := by
  by_cases hs : store.isEmpty
  · have hempty : find_similar_documents store query_text top_k = [] := by
      simp [find_similar_documents, hs]
    rw [hempty]
    exact ⟨fun _ => rfl, by simp, by simp, by simp⟩
  · have hbody : find_similar_documents store query_text top_k =
        ((sortDesc (store.map fun kv =>
            (kv.1, overlapCount (extract_keywords query_text)
              kv.2.keywords))).take top_k).filterMap (hitOf store) := by
      simp [find_similar_documents, hs]
    refine ⟨fun he => (hs (by rw [he]; rfl)).elim, ?_, ?_, ?_⟩
    · rw [hbody]
      exact le_trans (List.length_filterMap_le _ _) (List.length_take_le _ _)
    · rw [hbody]
      exact pairwise_hits store _
        ((sortDesc_pairwise _).sublist (List.take_sublist _ _))
    · intro hit hhit
      rw [hbody] at hhit
      obtain ⟨p, hp, hfp⟩ := List.mem_filterMap.mp hhit
      have hpmem : p ∈ sortDesc (store.map fun kv =>
          (kv.1, overlapCount (extract_keywords query_text)
            kv.2.keywords)) := List.mem_of_mem_take hp
      rw [mem_sortDesc] at hpmem
      obtain ⟨kv, hkv, hpe⟩ := List.mem_map.mp hpmem
      obtain ⟨hscore, hid⟩ := hitOf_score hfp
      refine ⟨kv, hkv, ?_, ?_⟩
      · rw [hid, ← hpe]
      · rw [hscore, ← hpe]

/-- C9 witness: the empty store yields the empty result. -/
theorem find_similar_documents_spec_witness :
    find_similar_documents [] "indemnification clause" 3 = [] :=
  (find_similar_documents_spec [] "indemnification clause" 3).1 rfl
